import Mathlib

/-!
Verification of `denue_cuantificar.py` (DENUEAPI repository).

This file gives a shallow embedding of the pure logic of the script:
the input validators, area padding, the token pool (`TokenManager`),
the single-request fetch/classify logic of `DENUEClient.fetch`,
record aggregation (`DENUEClient.quantify`), identifier extraction and
discovery (`DENUEClient.extract_id`, `DENUEClient.get_activities`),
the CSV row generation of `generate_csv`, and the abort guards of the
`__main__` block.  Network effects are modelled by an explicit outcome
oracle; thread scheduling is modelled by quantifying over the order in
which completed tasks are observed.

Python values that can appear inside API records are modelled by `PyVal`
(integers, strings and `None`); Python `str.strip`/`int(...)`/`str.zfill`
/`str.isdigit` are re-implemented over `List Char`.  Unicode refinements
of Python's notion of digits and whitespace, and underscore grouping in
integer literals, are outside every property considered here and are not
modelled.
-/

/-- Python whitespace test used by `str.strip` (ASCII fragment). -/
def pyIsSpace (c : Char) : Bool :=
  c == ' ' || c == '\t' || c == '\n' || c == '\r' || c == '\x0b' || c == '\x0c'

/-- Strip leading and trailing whitespace from a character list, as `str.strip()`. -/
def stripChars (l : List Char) : List Char :=
  ((l.dropWhile pyIsSpace).reverse.dropWhile pyIsSpace).reverse

/-- Python `s.strip()`. -/
def pyStrip (s : String) : String := String.mk (stripChars s.toList)

/-- Python `s.isdigit()`: nonempty and all characters are digits. -/
def isdigitStr (s : String) : Bool :=
  !s.toList.isEmpty && s.toList.all Char.isDigit

/-- Numeric value of a digit list (most significant first). -/
def digitsVal (l : List Char) : Nat :=
  l.foldl (fun acc c => acc * 10 + (c.toNat - 48)) 0

/-- Python `int(s)` on a string: strip whitespace, optional sign, digits;
`none` models the `ValueError` raised on any other shape. -/
def pyParseInt (s : String) : Option Int :=
  match stripChars s.toList with
  | [] => none
  | '-' :: rest =>
      if rest.isEmpty || !rest.all Char.isDigit then none
      else some (-(digitsVal rest : Int))
  | '+' :: rest =>
      if rest.isEmpty || !rest.all Char.isDigit then none
      else some ((digitsVal rest : Int))
  | cs =>
      if cs.all Char.isDigit then some ((digitsVal cs : Int)) else none

/-- Python `s.zfill(w)` for unsigned strings (the script only applies it to
digit strings, so the sign-aware branch of `zfill` can never fire). -/
def zfill (w : Nat) (s : String) : String :=
  if w ≤ s.length then s
  else String.mk (List.replicate (w - s.length) '0' ++ s.toList)

/-- Values that can appear inside an API record: a model of the Python values
the script actually inspects (ints, strings, `None`). -/
inductive PyVal where
  | vInt (n : Int)
  | vStr (s : String)
  | vNone
deriving DecidableEq

/-- Python truthiness of a `PyVal`. -/
def pyTruthy : PyVal → Bool
  | .vInt n => n != 0
  | .vStr s => s != ""
  | .vNone => false

/-- Python `int(v)`: `none` models the `ValueError`/`TypeError` raised when
the value cannot be coerced to an integer. -/
def pyToInt : PyVal → Option Int
  | .vInt n => some n
  | .vStr s => pyParseInt s
  | .vNone => none

/-- Python `str(v)`. -/
def pyStr : PyVal → String
  | .vInt n => toString n
  | .vStr s => s
  | .vNone => "None"

/-- One API record: JSON arrays become list-shaped records, JSON objects
become dictionary-shaped records (association list, first binding wins,
matching a Python dict with distinct keys). -/
inductive Rec where
  | lst (items : List PyVal)
  | dct (fields : List (String × PyVal))
deriving DecidableEq

/-- Association-list lookup, as Python `dict.get` over distinct keys. -/
def alookup {α : Type} : List (String × α) → String → Option α
  | [], _ => none
  | (k, v) :: rest, t => if k = t then some v else alookup rest t

/-! ## Validators (`validate_actividad`, `validate_area`, `validate_estrato`) -/

/-- Source `validate_actividad`: `actividad == '0' or (actividad.isdigit() and len(actividad) == 2)`. -/
def validate_actividad (actividad : String) : Bool :=
  actividad == "0" || (isdigitStr actividad && actividad.length == 2)

/-- Source `validate_area`: `area == '0' or (area.isdigit() and len(area) == 5)`. -/
def validate_area (area : String) : Bool :=
  area == "0" || (isdigitStr area && area.length == 5)

/-- Argument of `validate_estrato`, typed `Union[int, str]` in the source. -/
inductive EstratoInput where
  | int (n : Int)
  | str (s : String)
deriving DecidableEq

/-- Python `int(estrato)` on the union-typed argument. -/
def estratoToInt : EstratoInput → Option Int
  | .int n => some n
  | .str s => pyParseInt s

/-- Source `validate_estrato`: coerce with `int(...)` (ValueError gives
`False`), accept 0 when `allow_zero`, otherwise require `1 <= e <= 7`. -/
def validate_estrato (estrato : EstratoInput) (allow_zero : Bool := false) : Bool :=
  match estratoToInt estrato with
  | none => false
  | some e => if allow_zero && e == 0 then true else decide (1 ≤ e ∧ e ≤ 7)

/-! ## `pad_areas` -/

/-- Per-element body of the `pad_areas` loop: strip, keep `'0'` as is,
zero-pad short digit strings to width 5, drop anything else. -/
def padArea (a0 : String) : Option String :=
  let a := pyStrip a0
  if a = "0" then some "0"
  else if isdigitStr a = true ∧ a.length ≤ 5 then some (zfill 5 a)
  else none

/-- Order-preserving first-occurrence deduplication with an accumulator of
already seen strings; `dict.fromkeys` in the source. -/
def dedupFirstAux (seen : List String) : List String → List String
  | [] => []
  | x :: xs => if x ∈ seen then dedupFirstAux seen xs else x :: dedupFirstAux (x :: seen) xs

/-- Python `list(dict.fromkeys(out))`: dedup keeping first occurrences. -/
def dedupFirst (l : List String) : List String := dedupFirstAux [] l

/-- Source `pad_areas`: filter/normalise every raw area token, then dedup
preserving first-seen order. -/
def pad_areas (areas : List String) : List String :=
  dedupFirst (areas.filterMap padArea)

/-! ## `TokenManager`

The source keeps a FIFO `queue.Queue` of tokens plus a per-token-string
failure-count dict.  The model records the queue, the error map as an
association list (entries in lockstep with the Python dict: `bump` bumps
every entry of a key, `errCount` reads the first, so duplicated-key entry
values always agree with the dict value), and — as ghost state used to
express well-formed call sequences — the multiset of currently borrowed
tokens. -/

/-- Source constant `MAX_RETRIES_PER_TOKEN`. -/
def MAX_RETRIES_PER_TOKEN : Nat := 3

/-- State of a `TokenManager`: the FIFO queue, the failure-count map, and
the (ghost) list of tokens currently held by callers. -/
structure TMState where
  queue : List String
  errors : List (String × Nat)
  held : List String
deriving DecidableEq

/-- Failure count of a token, `0` when absent (a token absent from
`errors` would raise `KeyError` in the source; well-formed runs never
release such a token with `success=False`). -/
def errCount (e : List (String × Nat)) (t : String) : Nat :=
  (alookup e t).getD 0

/-- Source `self.errors[token] += 1`. -/
def bump (e : List (String × Nat)) (t : String) : List (String × Nat) :=
  e.map (fun p => if p.1 = t then (p.1, p.2 + 1) else p)

/-- Source `TokenManager.__init__`: seed the queue with every supplied
token and zero every failure counter. -/
def initTM (tokens : List String) : TMState :=
  ⟨tokens, tokens.map (fun t => (t, 0)), []⟩

/-- Source `TokenManager.get_token`: pop the front of the queue.  `none`
models the blocking wait on an empty queue (the call never returns). -/
def getTok (s : TMState) : Option String × TMState :=
  match s.queue with
  | [] => (none, s)
  | t :: q => (some t, ⟨q, s.errors, t :: s.held⟩)

/-- Source `TokenManager.release`: on failure bump the count and retire
the token (do not re-queue) once the count reaches
`MAX_RETRIES_PER_TOKEN`; otherwise re-queue it. -/
def releaseTok (s : TMState) (t : String) (success : Bool) : TMState :=
  let h := s.held.erase t
  if success then ⟨s.queue ++ [t], s.errors, h⟩
  else
    let e := bump s.errors t
    if MAX_RETRIES_PER_TOKEN ≤ errCount e t then ⟨s.queue, e, h⟩
    else ⟨s.queue ++ [t], e, h⟩

/-- One observable operation on the pool. -/
inductive TMOp where
  | get : TMOp
  | rel : String → Bool → TMOp
deriving DecidableEq

/-- Run a sequence of pool operations from a state. -/
def runOps : TMState → List TMOp → TMState
  | s, [] => s
  | s, .get :: ops => runOps (getTok s).2 ops
  | s, .rel t b :: ops => runOps (releaseTok s t b) ops

/-- Well-formed call sequences: a release only ever returns a token that
is currently borrowed — exactly how `DENUEClient.fetch` drives the pool. -/
def wfOps : TMState → List TMOp → Bool
  | _, [] => true
  | s, .get :: ops => wfOps (getTok s).2 ops
  | s, .rel t b :: ops => s.held.contains t && wfOps (releaseTok s t b) ops

/-! ## `DENUEClient.fetch` -/

/-- Top-level shape of the parsed JSON body (`r.json()`). -/
inductive Body where
  | arr (records : List Rec)
  | notArr
deriving DecidableEq

/-- Outcome of the single HTTP GET issued by `fetch`, as the source's
`try/except` discriminates it: a successfully parsed response,
an `requests.HTTPError` from `raise_for_status()` (carrying the status
code), or any other exception (network, retries exhausted, JSON parse). -/
inductive FetchOutcome where
  | ok (body : Body)
  | httpError (code : Nat)
  | exn
deriving DecidableEq

/-- Result of a `fetch` call that returned: the record list, the pool
state afterwards, and whether a credential was borrowed / a request was
issued on this call. -/
structure FetchOut where
  records : List Rec
  state : TMState
  borrowed : Bool
  issued : Bool
deriving DecidableEq

/-- Source `DENUEClient.fetch`, with the network effect supplied by an
outcome oracle.  `none` models the call blocking forever inside
`get_token` (empty pool), so it never returns and never issues a request.
Classification follows the source exactly: HTTP success releases the
token as a success and returns the body when it is a JSON array (else
`[]`); `HTTPError` releases with `success = code not in (401, 403)` and
returns `[]`; any other exception releases as a success and returns `[]`. -/
def fetch (s : TMState) (actividad area : String) (estrato : Int)
    (allow_zero_estrato : Bool) (outcome : FetchOutcome) : Option FetchOut :=
  if !(validate_actividad actividad && validate_area area
        && validate_estrato (.int estrato) allow_zero_estrato) then
    some ⟨[], s, false, false⟩
  else
    match s.queue with
    | [] => none
    | t :: q =>
      let s1 : TMState := ⟨q, s.errors, t :: s.held⟩
      some (match outcome with
        | .ok (.arr rs) => ⟨rs, releaseTok s1 t true, true, true⟩
        | .ok .notArr => ⟨[], releaseTok s1 t true, true, true⟩
        | .httpError code => ⟨[], releaseTok s1 t (!(code == 401 || code == 403)), true, true⟩
        | .exn => ⟨[], releaseTok s1 t true, true, true⟩)

/-! ## `DENUEClient.quantify` -/

/-- Contribution of one record to the `quantify` total: element 2 of a
list-shaped record of length ≥ 3, else the truthy-`'Total'`-or-`'total'`
field of a dictionary-shaped record; failed integer coercion (the bare
`except: continue`) and absent fields contribute 0. -/
def recContribution (item : Rec) : Int :=
  match item with
  | .lst items =>
      if 3 ≤ items.length then (pyToInt (items.getD 2 .vNone)).getD 0 else 0
  | .dct fields =>
      let tv := (alookup fields "Total").getD PyVal.vNone
      let val := if pyTruthy tv then tv else (alookup fields "total").getD PyVal.vNone
      if val = .vNone then 0 else (pyToInt val).getD 0

/-- The accumulation loop of `DENUEClient.quantify` over the fetched
records, mirroring the source's running `total`. -/
def quantifyLoop : Int → List Rec → Int
  | total, [] => total
  | total, item :: rest => quantifyLoop (total + recContribution item) rest

/-- Source `DENUEClient.quantify`: fetch (default timeout, no zero
stratum allowance) and sum the usable numeric field of every record.
`none` models the underlying fetch blocking forever. -/
def quantify (s : TMState) (actividad area : String) (estrato : Int)
    (outcome : FetchOutcome) : Option (Int × TMState) :=
  match fetch s actividad area estrato false outcome with
  | none => none
  | some out => some (quantifyLoop 0 out.records, out.state)

/-! ## `DENUEClient.extract_id` and discovery (`get_activities('0')`) -/

/-- First present value among the source's ordered identifier aliases in a
dictionary-shaped record. -/
def firstAlias (fields : List (String × PyVal)) : Option PyVal :=
  (alookup fields "AE") <|> (alookup fields "IdActividad") <|>
  (alookup fields "idActividad") <|> (alookup fields "IDE_ACTIVIDAD_ECONOMICA") <|>
  (alookup fields "actividad") <|> (alookup fields "Id") <|> (alookup fields "id")

/-- Source `DENUEClient.extract_id`: first element of a nonempty
list-shaped record, else the first present alias field of a
dictionary-shaped record, stringified; `none` otherwise. -/
def extract_id (record : Rec) : Option String :=
  match record with
  | .lst [] => none
  | .lst (x :: _) => some (pyStr x)
  | .dct fields => (firstAlias fields).map pyStr

/-- The identifier list built by `get_activities`:
`[extract_id(r) for r in raw if extract_id(r)]` (a `None` or empty-string
identifier is falsy and filtered out). -/
def discoveredIds (raw : List Rec) : List String :=
  raw.filterMap (fun r =>
    match extract_id r with
    | some s => if s = "" then none else some s
    | none => none)

/-- Insertion into a list sorted by an integer key (ascending). -/
def insertByKey (key : String → Int) (x : String) : List String → List String
  | [] => [x]
  | y :: ys => if key x ≤ key y then x :: y :: ys else y :: insertByKey key x ys

/-- Insertion sort by an integer key: Python `sorted(..., key=int)` once
every element is known to parse. -/
def sortByKey (key : String → Int) (l : List String) : List String :=
  l.foldr (insertByKey key) []

/-- Discovery tail of `DENUEClient.get_activities` applied to the raw
records of the catalogue fetch: keep the truthy identifiers of length 2,
form the set (first occurrences), and sort by `int` key.  `none` models
the `ValueError` that `sorted(..., key=int)` raises as soon as a kept
identifier is not an integer literal.  (The source's intermediate set has
no specified iteration order; the sort makes the result order-independent
whenever all integer keys are distinct, and the theorems below only use
order-insensitive consequences plus a distinct-key example.) -/
def two_digit_sectors (raw : List Rec) : Option (List String) :=
  let kept := (discoveredIds raw).filter (fun i => i.length == 2)
  let dd := dedupFirst kept
  if dd.all (fun i => (pyParseInt i).isSome) then
    some (sortByKey (fun i => (pyParseInt i).getD 0) dd)
  else none

/-- Claimed behaviour of discovery (for comparison with the code):
keep only identifiers that are exactly 2 DIGITS, deduplicate, and sort
numerically ascending — never failing.  This follows the words of the
specification, not the source. -/
def two_digit_sectors_spec (raw : List Rec) : List String :=
  let kept := (discoveredIds raw).filter (fun i => isdigitStr i && i.length == 2)
  sortByKey (fun i => (pyParseInt i).getD 0) (dedupFirst kept)

/-! ## `generate_csv` and the `__main__` guards -/

/-- Task tuples in submission order: the source stores
`futures[future] = (ramo, estrato, area)` over the triple loop
`for ramo: for area: for estrato`. -/
def tasksOf (ramos : List String) (areas : List String) (estratos : List Int) :
    List (String × Int × String) :=
  ramos.flatMap (fun ramo => areas.flatMap (fun area => estratos.map (fun e => (ramo, e, area))))

/-- Data rows written by `generate_csv` (header excluded): one row
`[ramo, estrato, total, area]` per completed future, in completion order.
`order` is the completion order produced by `as_completed` — an arbitrary
permutation of the submitted tasks for every worker-pool size — and `q`
gives the count each task's `quantify` call resolved to. -/
def generate_csv_rows (q : String × Int × String → Int)
    (order : List (String × Int × String)) : List (String × Int × Int × String) :=
  order.map (fun t => (t.1, t.2.1, q t, t.2.2))

/-- Abort guards of the `__main__` block: `exit(1)` when no activities
resolve, else `exit(1)` when no valid areas resolve, else the run
proceeds (`none`).  No guard inspects the credential list. -/
def mainGuardExit (actividades : List String) (areas : List String) : Option Nat :=
  if actividades.isEmpty then some 1
  else if areas.isEmpty then some 1
  else none

/-! ## Helper lemmas: deduplication -/

theorem mem_dedupFirstAux (x : String) : ∀ (l seen : List String),
    x ∈ dedupFirstAux seen l ↔ x ∈ l ∧ x ∉ seen := by
  intro l
  induction l with
  | nil => intro seen; simp [dedupFirstAux]
  | cons y ys ih =>
    intro seen
    by_cases hy : y ∈ seen
    · simp only [dedupFirstAux, if_pos hy, ih, List.mem_cons]
      constructor
      · rintro ⟨hx, hns⟩; exact ⟨Or.inr hx, hns⟩
      · rintro ⟨hx | hx, hns⟩
        · exact absurd hy (hx ▸ hns)
        · exact ⟨hx, hns⟩
    · simp only [dedupFirstAux, if_neg hy, List.mem_cons, ih]
      constructor
      · rintro (rfl | ⟨hx, hns⟩)
        · exact ⟨Or.inl rfl, hy⟩
        · exact ⟨Or.inr hx, fun h => hns (Or.inr h)⟩
      · rintro ⟨rfl | hx, hns⟩
        · exact Or.inl rfl
        · by_cases hxy : x = y
          · exact Or.inl hxy
          · refine Or.inr ⟨hx, ?_⟩
            intro hmem
            rcases hmem with h1 | h2
            · exact hxy h1
            · exact hns h2

theorem nodup_dedupFirstAux : ∀ (l seen : List String), (dedupFirstAux seen l).Nodup := by
  intro l
  induction l with
  | nil => intro seen; simp [dedupFirstAux]
  | cons y ys ih =>
    intro seen
    by_cases hy : y ∈ seen
    · simpa [dedupFirstAux, if_pos hy] using ih seen
    · simp only [dedupFirstAux, if_neg hy]
      refine List.Nodup.cons ?_ (ih (y :: seen))
      intro hmem
      exact ((mem_dedupFirstAux y ys (y :: seen)).1 hmem).2 (List.mem_cons_self y seen)

theorem dedupFirstAux_eq_self : ∀ (l seen : List String), l.Nodup →
    (∀ x ∈ l, x ∉ seen) → dedupFirstAux seen l = l := by
  intro l
  induction l with
  | nil => intro seen _ _; rfl
  | cons y ys ih =>
    intro seen hnd hout
    have hy : y ∉ seen := hout y (List.mem_cons_self y ys)
    rw [dedupFirstAux, if_neg hy]
    congr 1
    refine ih (y :: seen) hnd.of_cons ?_
    intro x hx
    simp only [List.mem_cons, not_or]
    exact ⟨fun h => (List.nodup_cons.1 hnd).1 (h ▸ hx), hout x (List.mem_cons_of_mem _ hx)⟩

theorem mem_dedupFirst (x : String) (l : List String) : x ∈ dedupFirst l ↔ x ∈ l := by
  simp [dedupFirst, mem_dedupFirstAux]

theorem nodup_dedupFirst (l : List String) : (dedupFirst l).Nodup :=
  nodup_dedupFirstAux l []

theorem dedupFirst_eq_self (l : List String) (h : l.Nodup) : dedupFirst l = l :=
  dedupFirstAux_eq_self l [] h (by simp)

/-! ## Helper lemmas: insertion sort by integer key -/

theorem insertByKey_perm (key : String → Int) (x : String) :
    ∀ l : List String, (insertByKey key x l).Perm (x :: l) := by
  intro l
  induction l with
  | nil => simp [insertByKey]
  | cons y ys ih =>
    rw [insertByKey]
    by_cases h : key x ≤ key y
    · rw [if_pos h]
    · rw [if_neg h]
      exact (ih.cons y).trans (List.Perm.swap x y ys)

theorem sortByKey_perm (key : String → Int) :
    ∀ l : List String, (sortByKey key l).Perm l := by
  intro l
  induction l with
  | nil => simp [sortByKey]
  | cons y ys ih =>
    have : sortByKey key (y :: ys) = insertByKey key y (sortByKey key ys) := rfl
    rw [this]
    exact (insertByKey_perm key y (sortByKey key ys)).trans (ih.cons y)

theorem sorted_insertByKey (key : String → Int) (x : String) :
    ∀ l : List String, l.Pairwise (fun a b => key a ≤ key b) →
      (insertByKey key x l).Pairwise (fun a b => key a ≤ key b) := by
  intro l
  induction l with
  | nil => intro _; simp [insertByKey]
  | cons y ys ih =>
    intro hp
    rw [insertByKey]
    rcases List.pairwise_cons.1 hp with ⟨hy, hys⟩
    by_cases h : key x ≤ key y
    · rw [if_pos h]
      refine List.Pairwise.cons ?_ hp
      intro a ha
      rcases List.mem_cons.1 ha with rfl | ha
      · exact h
      · exact le_trans h (hy a ha)
    · rw [if_neg h]
      refine List.Pairwise.cons ?_ (ih hys)
      intro a ha
      rcases List.mem_cons.1 ((insertByKey_perm key x ys).mem_iff.1 ha) with rfl | ha2
      · exact le_of_not_le h
      · exact hy a ha2

theorem sorted_sortByKey (key : String → Int) (l : List String) :
    (sortByKey key l).Pairwise (fun a b => key a ≤ key b) := by
  induction l with
  | nil => simp [sortByKey]
  | cons y ys ih => exact sorted_insertByKey key y (sortByKey key ys) ih

/-! ## Helper lemmas: stripping, zero-padding, `pad_areas` -/

theorem digit_not_space (c : Char) (hd : c.isDigit = true) : pyIsSpace c = false := by
  cases hsp : pyIsSpace c with
  | false => rfl
  | true =>
    exfalso
    simp only [pyIsSpace, Bool.or_eq_true, beq_iff_eq] at hsp
    rcases hsp with ((((h | h) | h) | h) | h) | h <;> subst h <;> exact absurd hd (by decide)

theorem dropWhile_pyIsSpace_of_digits (l : List Char) (h : ∀ c ∈ l, c.isDigit = true) :
    l.dropWhile pyIsSpace = l := by
  cases l with
  | nil => rfl
  | cons c cs =>
    rw [List.dropWhile_cons, digit_not_space c (h c (List.mem_cons_self c cs))]
    simp

theorem stripChars_of_digits (l : List Char) (h : l.all Char.isDigit = true) :
    stripChars l = l := by
  have hmem := List.all_eq_true.1 h
  unfold stripChars
  rw [dropWhile_pyIsSpace_of_digits l hmem,
      dropWhile_pyIsSpace_of_digits l.reverse (fun c hc => hmem c (List.mem_reverse.1 hc)),
      List.reverse_reverse]

theorem pyStrip_of_digits (s : String) (h : s.toList.all Char.isDigit = true) :
    pyStrip s = s := by
  unfold pyStrip
  rw [stripChars_of_digits s.toList h]
  rfl

theorem zfill5_length (a : String) (h : a.length ≤ 5) : (zfill 5 a).length = 5 := by
  unfold zfill
  by_cases h5 : 5 ≤ a.length
  · rw [if_pos h5]; omega
  · rw [if_neg h5]
    show (List.replicate (5 - a.length) '0' ++ a.toList).length = 5
    rw [List.length_append, List.length_replicate]
    have : a.toList.length = a.length := rfl
    omega

theorem zfill5_digits (a : String) (h : a.toList.all Char.isDigit = true) :
    (zfill 5 a).toList.all Char.isDigit = true := by
  unfold zfill
  by_cases h5 : 5 ≤ a.length
  · rw [if_pos h5]; exact h
  · rw [if_neg h5]
    show (List.replicate (5 - a.length) '0' ++ a.toList).all Char.isDigit = true
    rw [List.all_append, h]
    have : (List.replicate (5 - a.length) '0').all Char.isDigit = true := by
      rw [List.all_eq_true]
      intro c hc
      rw [List.eq_of_mem_replicate hc]
      decide
    rw [this]
    rfl

theorem padArea_canonical (a x : String) (h : padArea a = some x) :
    x = "0" ∨ (x.toList.all Char.isDigit = true ∧ x.length = 5) := by
  simp only [padArea] at h
  split at h
  · exact Or.inl (Option.some.inj h).symm
  · split at h
    · rename_i hcond
      refine Or.inr ?_
      rw [← Option.some.inj h]
      have hdig : (pyStrip a).toList.all Char.isDigit = true := by
        have h2 := hcond.1
        simp only [isdigitStr, Bool.and_eq_true] at h2
        exact h2.2
      exact ⟨zfill5_digits _ hdig, zfill5_length _ hcond.2⟩
    · exact absurd h (by simp)

theorem padArea_of_canonical (x : String)
    (h : x = "0" ∨ (x.toList.all Char.isDigit = true ∧ x.length = 5)) :
    padArea x = some x := by
  rcases h with rfl | ⟨hdig, hlen⟩
  · decide
  · have hstrip : pyStrip x = x := pyStrip_of_digits x hdig
    have hne0 : x ≠ "0" := by
      intro h0
      rw [h0] at hlen
      exact absurd hlen (by decide)
    have hisdig : isdigitStr x = true := by
      unfold isdigitStr
      rw [hdig, Bool.and_true]
      have : x.toList.length = 5 := hlen
      cases hx : x.toList with
      | nil => rw [hx] at this; exact absurd this (by decide)
      | cons c cs => rfl
    simp only [padArea, hstrip, if_neg hne0]
    rw [if_pos ⟨hisdig, by omega⟩]
    unfold zfill
    rw [if_pos (by omega)]

theorem filterMap_padArea_self : ∀ l : List String, (∀ x ∈ l, padArea x = some x) →
    l.filterMap padArea = l := by
  intro l
  induction l with
  | nil => intro _; rfl
  | cons y ys ih =>
    intro h
    rw [List.filterMap_cons_some (h y (List.mem_cons_self y ys)),
        ih (fun x hx => h x (List.mem_cons_of_mem _ hx))]

/-! ## Helper lemmas: the token pool invariant -/

theorem alookup_init (tokens : List String) (t : String) (h : t ∈ tokens) :
    alookup (tokens.map (fun t => (t, 0))) t = some 0 := by
  induction tokens with
  | nil => exact absurd h (List.not_mem_nil t)
  | cons y ys ih =>
    rw [List.map_cons]
    by_cases hy : y = t
    · simp [alookup, hy]
    · rw [show alookup ((y, 0) :: ys.map (fun t => (t, 0))) t
            = alookup (ys.map (fun t => (t, 0))) t by simp [alookup, hy]]
      exact ih (by rcases List.mem_cons.1 h with rfl | h2; exact absurd rfl hy; exact h2)

theorem errCount_init (tokens : List String) (t : String) :
    errCount (tokens.map (fun t => (t, 0))) t = 0 := by
  unfold errCount
  induction tokens with
  | nil => rfl
  | cons y ys ih =>
    rw [List.map_cons]
    by_cases hy : y = t
    · simp [alookup, hy]
    · rw [show alookup ((y, 0) :: ys.map (fun t => (t, 0))) t
            = alookup (ys.map (fun t => (t, 0))) t by simp [alookup, hy]]
      exact ih


theorem bump_cons (k : String) (v : Nat) (ps : List (String × Nat)) (t : String) :
    bump ((k, v) :: ps) t = (if k = t then (k, v + 1) else (k, v)) :: bump ps t := by
  unfold bump
  rw [List.map_cons]

theorem alookup_bump_isSome (e : List (String × Nat)) (t u : String) :
    (alookup (bump e t) u).isSome = (alookup e u).isSome := by
  induction e with
  | nil => rfl
  | cons p ps ih =>
    rcases p with ⟨k, v⟩
    rw [bump_cons]
    by_cases hk : k = t
    · rw [if_pos hk]
      show (if k = u then some (v + 1) else alookup (bump ps t) u).isSome
         = (if k = u then some v else alookup ps u).isSome
      by_cases hku : k = u
      · rw [if_pos hku, if_pos hku]; rfl
      · rw [if_neg hku, if_neg hku]; exact ih
    · rw [if_neg hk]
      show (if k = u then some v else alookup (bump ps t) u).isSome
         = (if k = u then some v else alookup ps u).isSome
      by_cases hku : k = u
      · rw [if_pos hku, if_pos hku]
      · rw [if_neg hku, if_neg hku]; exact ih

theorem errCount_bump_self (e : List (String × Nat)) (t : String)
    (h : (alookup e t).isSome = true) :
    errCount (bump e t) t = errCount e t + 1 := by
  induction e with
  | nil => exact absurd h (by simp [alookup])
  | cons p ps ih =>
    rcases p with ⟨k, v⟩
    unfold errCount
    rw [bump_cons]
    by_cases hk : k = t
    · rw [if_pos hk]
      show (if k = t then some (v + 1) else alookup (bump ps t) t).getD 0
         = (if k = t then some v else alookup ps t).getD 0 + 1
      rw [if_pos hk, if_pos hk]
      rfl
    · rw [if_neg hk]
      show (if k = t then some v else alookup (bump ps t) t).getD 0
         = (if k = t then some v else alookup ps t).getD 0 + 1
      rw [if_neg hk, if_neg hk]
      have h' : (alookup ps t).isSome = true := by
        have heq : alookup ((k, v) :: ps) t = alookup ps t := by
          show (if k = t then some v else alookup ps t) = alookup ps t
          rw [if_neg hk]
        rw [heq] at h
        exact h
      exact ih h'

theorem errCount_bump_ne (e : List (String × Nat)) (t u : String) (h : u ≠ t) :
    errCount (bump e t) u = errCount e u := by
  induction e with
  | nil => rfl
  | cons p ps ih =>
    rcases p with ⟨k, v⟩
    unfold errCount
    rw [bump_cons]
    by_cases hk : k = t
    · rw [if_pos hk]
      show (if k = u then some (v + 1) else alookup (bump ps t) u).getD 0
         = (if k = u then some v else alookup ps u).getD 0
      have hku : ¬(k = u) := fun hh => h ((hh.symm).trans hk)
      rw [if_neg hku, if_neg hku]
      exact ih
    · rw [if_neg hk]
      show (if k = u then some v else alookup (bump ps t) u).getD 0
         = (if k = u then some v else alookup ps u).getD 0
      by_cases hku : k = u
      · rw [if_pos hku, if_pos hku]
      · rw [if_neg hku, if_neg hku]; exact ih

/-- Invariant of the token pool: circulating and borrowed tokens all come
from the original list, no token is simultaneously in two places, all
original tokens have a failure counter, and a retired token (counter at
the threshold) is neither circulating nor borrowed. -/
def poolInv (tokens : List String) (s : TMState) : Prop :=
  (∀ t ∈ s.queue, t ∈ tokens) ∧
  (∀ t ∈ s.held, t ∈ tokens) ∧
  (s.queue ++ s.held).Nodup ∧
  (∀ t ∈ tokens, (alookup s.errors t).isSome = true) ∧
  (∀ t, MAX_RETRIES_PER_TOKEN ≤ errCount s.errors t → t ∉ s.queue ∧ t ∉ s.held)

theorem poolInv_init (tokens : List String) (hnd : tokens.Nodup) :
    poolInv tokens (initTM tokens) := by
  refine ⟨fun t ht => ht, fun t ht => absurd ht (List.not_mem_nil t), ?_, ?_, ?_⟩
  · simpa [initTM] using hnd
  · intro t ht
    rw [show (initTM tokens).errors = tokens.map (fun t => (t, 0)) from rfl,
        alookup_init tokens t ht]
    rfl
  · intro t hcnt
    rw [show (initTM tokens).errors = tokens.map (fun t => (t, 0)) from rfl,
        errCount_init tokens t] at hcnt
    exact absurd hcnt (by decide)

theorem poolInv_get (tokens : List String) (s : TMState) (h : poolInv tokens s) :
    poolInv tokens (getTok s).2 := by
  obtain ⟨hq, hh, hnd, hsome, hret⟩ := h
  rcases s with ⟨Q, E, H⟩
  cases Q with
  | nil => exact ⟨hq, hh, hnd, hsome, hret⟩
  | cons t q =>
    refine ⟨fun u hu => hq u (List.mem_cons_of_mem t hu),
            fun u hu => ?_, ?_, hsome, fun u hcnt => ?_⟩
    · rcases List.mem_cons.1 hu with rfl | hu2
      · exact hq u (List.mem_cons_self u q)
      · exact hh u hu2
    · show (q ++ t :: H).Nodup
      have heq : ((t :: q) ++ H).Nodup = (t :: (q ++ H)).Nodup := rfl
      exact List.Perm.nodup List.perm_middle.symm (heq ▸ hnd)
    · have hold := hret u hcnt
      have hu1 : u ∉ t :: q := hold.1
      refine ⟨fun hu => hu1 (List.mem_cons_of_mem t hu), fun hu => ?_⟩
      rcases List.mem_cons.1 hu with rfl | hu2
      · exact hu1 (List.mem_cons_self u q)
      · exact hold.2 hu2

theorem poolInv_rel (tokens : List String) (s : TMState) (t : String) (b : Bool)
    (h : poolInv tokens s) (ht : t ∈ s.held) :
    poolInv tokens (releaseTok s t b) := by
  obtain ⟨hq, hh, hnd, hsome, hret⟩ := h
  rcases s with ⟨Q, E, H⟩
  have htH : t ∈ H := ht
  have hdisj : Q.Disjoint H := List.disjoint_of_nodup_append hnd
  have hndH : H.Nodup := hnd.of_append_right
  have hpermH : H.Perm (t :: H.erase t) := List.perm_cons_erase htH
  have hnd' : (Q ++ t :: H.erase t).Nodup :=
    (List.Perm.append_left Q hpermH).nodup hnd
  have hndQt : ((Q ++ [t]) ++ H.erase t).Nodup := by
    rw [List.append_assoc]
    exact hnd'
  have hmemQ' : ∀ u ∈ Q ++ [t], u ∈ tokens := by
    intro u hu
    rcases List.mem_append.1 hu with hu1 | hu1
    · exact hq u hu1
    · rw [List.mem_singleton.1 hu1]
      exact hh t htH
  have hmemH' : ∀ u ∈ H.erase t, u ∈ tokens :=
    fun u hu => hh u (List.erase_subset t H hu)
  have htnotQ : t ∉ Q := fun hQt => hdisj hQt htH
  have htnotE : t ∉ H.erase t := hndH.not_mem_erase
  cases b with
  | true =>
    refine ⟨hmemQ', hmemH', hndQt, hsome, fun u hcnt => ?_⟩
    have hold := hret u hcnt
    have hut : u ≠ t := fun hh2 => hold.2 (hh2 ▸ htH)
    constructor
    · intro hu
      rcases List.mem_append.1 hu with hu1 | hu1
      · exact hold.1 hu1
      · exact hut (List.mem_singleton.1 hu1)
    · exact fun hu => hold.2 (List.erase_subset t H hu)
  | false =>
    show poolInv tokens
      (if MAX_RETRIES_PER_TOKEN ≤ errCount (bump E t) t
       then ⟨Q, bump E t, H.erase t⟩
       else ⟨Q ++ [t], bump E t, H.erase t⟩)
    have hsome' : ∀ u ∈ tokens, (alookup (bump E t) u).isSome = true :=
      fun u hu => (alookup_bump_isSome E t u).trans (hsome u hu)
    by_cases hthr : MAX_RETRIES_PER_TOKEN ≤ errCount (bump E t) t
    · rw [if_pos hthr]
      refine ⟨hq, hmemH', ?_, hsome', fun u hcnt => ?_⟩
      · exact List.Nodup.append hnd.of_append_left (List.Nodup.erase t hndH)
          (fun u hu1 hu2 => hdisj hu1 (List.erase_subset t H hu2))
      · by_cases hut : u = t
        · subst hut
          exact ⟨htnotQ, htnotE⟩
        · rw [errCount_bump_ne E t u hut] at hcnt
          have hold := hret u hcnt
          exact ⟨hold.1, fun hu => hold.2 (List.erase_subset t H hu)⟩
    · rw [if_neg hthr]
      refine ⟨hmemQ', hmemH', hndQt, hsome', fun u hcnt => ?_⟩
      by_cases hut : u = t
      · subst hut
        exact absurd hcnt hthr
      · rw [errCount_bump_ne E t u hut] at hcnt
        have hold := hret u hcnt
        constructor
        · intro hu
          rcases List.mem_append.1 hu with hu1 | hu1
          · exact hold.1 hu1
          · exact hut (List.mem_singleton.1 hu1)
        · exact fun hu => hold.2 (List.erase_subset t H hu)

theorem poolInv_run (tokens : List String) : ∀ (ops : List TMOp) (s : TMState),
    poolInv tokens s → wfOps s ops = true → poolInv tokens (runOps s ops) := by
  intro ops
  induction ops with
  | nil => intro s h _; exact h
  | cons op rest ih =>
    intro s h hwf
    cases op with
    | get => exact ih (getTok s).2 (poolInv_get tokens s h) hwf
    | rel t b =>
      rw [show wfOps s (.rel t b :: rest)
            = (s.held.contains t && wfOps (releaseTok s t b) rest) from rfl,
          Bool.and_eq_true] at hwf
      have hmem : t ∈ s.held := List.elem_iff.mp hwf.1
      exact ih (releaseTok s t b) (poolInv_rel tokens s t b h hmem) hwf.2

/-! ## Helper lemmas: task counting -/

theorem tasks_area_length (ramo : String) (areas : List String) (estratos : List Int) :
    (areas.flatMap (fun area => estratos.map (fun e => (ramo, e, area)))).length
      = areas.length * estratos.length := by
  induction areas with
  | nil => simp
  | cons a as ih =>
    rw [List.flatMap_cons, List.length_append, List.length_map, ih,
        List.length_cons]
    ring

theorem tasksOf_length (ramos areas : List String) (estratos : List Int) :
    (tasksOf ramos areas estratos).length = ramos.length * (areas.length * estratos.length) := by
  induction ramos with
  | nil => simp [tasksOf]
  | cons r rs ih =>
    rw [tasksOf, List.flatMap_cons, List.length_append, tasks_area_length]
    rw [tasksOf] at ih
    rw [ih, List.length_cons]
    ring

/-! ## Claims -/

/-- C1: for every list of activities, areas and strata, `generate_csv`
writes exactly one data row per element of the Cartesian product
activities x areas x strata — the row count equals the product of the
three lengths and the written (ramo, estrato, area) triples are a
permutation of (hence exactly, with multiplicity, no duplicate and no
drop) the generated task set.  The completion order `order` delivered by
`as_completed` is an arbitrary permutation of the submitted tasks, which
covers every worker-pool size and schedule. -/
theorem generate_csv_row_accounting (ramos areas : List String) (estratos : List Int)
    (q : String × Int × String → Int) (order : List (String × Int × String))
    (hperm : order.Perm (tasksOf ramos areas estratos)) :
    (generate_csv_rows q order).length = ramos.length * areas.length * estratos.length ∧
    ((generate_csv_rows q order).map (fun row => (row.1, row.2.1, row.2.2.2))).Perm
      (tasksOf ramos areas estratos) := by
  constructor
  · rw [generate_csv_rows, List.length_map, hperm.length_eq, tasksOf_length, Nat.mul_assoc]
  · have hmap : (generate_csv_rows q order).map (fun row => (row.1, row.2.1, row.2.2.2))
        = order := by
      rw [generate_csv_rows, List.map_map]
      have hcomp : ((fun row : String × Int × Int × String => (row.1, row.2.1, row.2.2.2))
          ∘ (fun t : String × Int × String => (t.1, t.2.1, q t, t.2.2))) = id := by
        funext t
        rfl
      rw [hcomp, List.map_id]
    rw [hmap]
    exact hperm

/-- Witness for C1 at a concrete two-task run observed in reversed
completion order. -/
theorem generate_csv_row_accounting_witness :
    (generate_csv_rows (fun _ => 7) [("11", 2, "01001"), ("11", 1, "01001")]).length
      = (["11"] : List String).length * (["01001"] : List String).length
        * (([1, 2] : List Int)).length ∧
    ((generate_csv_rows (fun _ => 7) [("11", 2, "01001"), ("11", 1, "01001")]).map
        (fun row => (row.1, row.2.1, row.2.2.2))).Perm (tasksOf ["11"] ["01001"] [1, 2]) :=
  generate_csv_row_accounting ["11"] ["01001"] [1, 2] (fun _ => 7)
    [("11", 2, "01001"), ("11", 1, "01001")] (by decide)

/-- C9: `validate_estrato` accepts exactly the values denoting an integer
between 1 and 7, plus the sentinel 0 when and only when `allow_zero` is
set, and rejects everything else. -/
theorem validate_estrato_correct (v : EstratoInput) (allow_zero : Bool) :
    validate_estrato v allow_zero = true ↔
      ∃ e : Int, estratoToInt v = some e ∧
        ((1 ≤ e ∧ e ≤ 7) ∨ (allow_zero = true ∧ e = 0)) := by
  cases h : estratoToInt v with
  | none =>
    simp [validate_estrato, h]
  | some e =>
    simp only [validate_estrato, h]
    constructor
    · intro hv
      by_cases hz : (allow_zero && (e == 0)) = true
      · rw [Bool.and_eq_true] at hz
        exact ⟨e, rfl, Or.inr ⟨hz.1, beq_iff_eq.mp hz.2⟩⟩
      · rw [if_neg hz] at hv
        exact ⟨e, rfl, Or.inl (of_decide_eq_true hv)⟩
    · rintro ⟨e', he', hcase⟩
      obtain rfl : e = e' := Option.some.inj he'
      rcases hcase with h17 | ⟨hz, h0⟩
      · by_cases hz : (allow_zero && (e == 0)) = true
        · rw [if_pos hz]
        · rw [if_neg hz]
          exact decide_eq_true h17
      · subst h0
        subst hz
        rfl

/-- C5: an (activity, area, stratum) triple failing any of the three
validators makes `fetch` return the empty list without borrowing a
credential, without issuing a request, and with the pool state unchanged. -/
theorem fetch_rejects_invalid (s : TMState) (actividad area : String) (estrato : Int)
    (allow_zero : Bool) (outcome : FetchOutcome)
    (h : (validate_actividad actividad && validate_area area
          && validate_estrato (.int estrato) allow_zero) = false) :
    fetch s actividad area estrato allow_zero outcome = some ⟨[], s, false, false⟩ := by
  unfold fetch
  rw [h]
  rfl

/-- Witness for C5: activity `"7"` (one digit) is rejected outright; the
pool keeps its token and its zeroed counter. -/
theorem fetch_rejects_invalid_witness :
    fetch (initTM ["t1"]) "7" "01001" 1 false .exn = some ⟨[], initTM ["t1"], false, false⟩ :=
  fetch_rejects_invalid (initTM ["t1"]) "7" "01001" 1 false .exn (by decide)

theorem releaseTok_true (s : TMState) (t : String) :
    releaseTok s t true = ⟨s.queue ++ [t], s.errors, s.held.erase t⟩ := rfl

theorem releaseTok_false_errors (s : TMState) (t : String) :
    (releaseTok s t false).errors = bump s.errors t := by
  show (if MAX_RETRIES_PER_TOKEN ≤ errCount (bump s.errors t) t
        then TMState.mk s.queue (bump s.errors t) (s.held.erase t)
        else TMState.mk (s.queue ++ [t]) (bump s.errors t) (s.held.erase t)).errors
      = bump s.errors t
  by_cases h : MAX_RETRIES_PER_TOKEN ≤ errCount (bump s.errors t) t
  · rw [if_pos h]
  · rw [if_neg h]

/-- C4: when `fetch` actually issues a request, the borrowed token's
failure count is incremented exactly when the outcome is an HTTP error
with status 401 or 403; any other HTTP error status and any non-HTTP
exception release the token as a success — failure count unchanged, the
token re-queued — and `fetch` returns the empty list. -/
theorem fetch_classifies_http_errors (s : TMState) (actividad area : String) (estrato : Int)
    (allow_zero : Bool) (outcome : FetchOutcome) (t : String) (q : List String)
    (hq : s.queue = t :: q)
    (hv : (validate_actividad actividad && validate_area area
           && validate_estrato (.int estrato) allow_zero) = true)
    (hl : (alookup s.errors t).isSome = true) :
    ∃ out : FetchOut, fetch s actividad area estrato allow_zero outcome = some out ∧
      out.borrowed = true ∧ out.issued = true ∧
      (errCount out.state.errors t = errCount s.errors t + 1 ↔
        ∃ c, outcome = .httpError c ∧ (c = 401 ∨ c = 403)) ∧
      ((∃ c, outcome = .httpError c ∧ ¬(c = 401 ∨ c = 403)) ∨ outcome = .exn →
        out.state.errors = s.errors ∧ out.records = [] ∧ out.state.queue = q ++ [t]) := by
  have hfetch : fetch s actividad area estrato allow_zero outcome =
      some (match outcome with
        | .ok (.arr rs) => ⟨rs, releaseTok ⟨q, s.errors, t :: s.held⟩ t true, true, true⟩
        | .ok .notArr => ⟨[], releaseTok ⟨q, s.errors, t :: s.held⟩ t true, true, true⟩
        | .httpError code =>
            ⟨[], releaseTok ⟨q, s.errors, t :: s.held⟩ t (!(code == 401 || code == 403)),
              true, true⟩
        | .exn => ⟨[], releaseTok ⟨q, s.errors, t :: s.held⟩ t true, true, true⟩) := by
    unfold fetch
    rw [hv, hq]
    rfl
  cases outcome with
  | ok body =>
    cases body with
    | arr rs =>
      refine ⟨_, hfetch, rfl, rfl, ?_, ?_⟩
      · constructor
        · intro hcontra
          exfalso
          have heq : errCount s.errors t = errCount s.errors t + 1 := hcontra
          omega
        · rintro ⟨c, hc, _⟩
          exact absurd hc (by simp)
      · rintro (⟨c, hc, _⟩ | hc) <;> exact absurd hc (by simp)
    | notArr =>
      refine ⟨_, hfetch, rfl, rfl, ?_, ?_⟩
      · constructor
        · intro hcontra
          exfalso
          have heq : errCount s.errors t = errCount s.errors t + 1 := hcontra
          omega
        · rintro ⟨c, hc, _⟩
          exact absurd hc (by simp)
      · rintro (⟨c, hc, _⟩ | hc) <;> exact absurd hc (by simp)
  | httpError code =>
    have hf : fetch s actividad area estrato allow_zero (.httpError code) =
        some ⟨[], releaseTok ⟨q, s.errors, t :: s.held⟩ t (!(code == 401 || code == 403)),
          true, true⟩ := hfetch
    cases hcode : (code == 401 || code == 403) with
    | true =>
      rw [hcode] at hf
      have hdis : code = 401 ∨ code = 403 := by
        rw [Bool.or_eq_true] at hcode
        rcases hcode with h1 | h1
        · exact Or.inl (beq_iff_eq.mp h1)
        · exact Or.inr (beq_iff_eq.mp h1)
      refine ⟨_, hf, rfl, rfl, ?_, ?_⟩
      · constructor
        · intro _
          exact ⟨code, rfl, hdis⟩
        · intro _
          show errCount (releaseTok ⟨q, s.errors, t :: s.held⟩ t false).errors t
              = errCount s.errors t + 1
          rw [releaseTok_false_errors]
          exact errCount_bump_self s.errors t hl
      · rintro (⟨c, hc, hnc⟩ | hc)
        · exact absurd ((FetchOutcome.httpError.inj hc) ▸ hdis) hnc
        · exact absurd hc (by simp)
    | false =>
      rw [hcode] at hf
      have hndis : ¬(code = 401 ∨ code = 403) := by
        intro hdis
        rcases hdis with rfl | rfl <;> exact absurd hcode (by decide)
      refine ⟨_, hf, rfl, rfl, ?_, ?_⟩
      · constructor
        · intro hcontra
          exfalso
          have heq : errCount s.errors t = errCount s.errors t + 1 := hcontra
          omega
        · rintro ⟨c, hc, hdis⟩
          exact absurd ((FetchOutcome.httpError.inj hc) ▸ hdis) hndis
      · intro _
        exact ⟨rfl, rfl, rfl⟩
  | exn =>
    refine ⟨_, hfetch, rfl, rfl, ?_, ?_⟩
    · constructor
      · intro hcontra
        exfalso
        have heq : errCount s.errors t = errCount s.errors t + 1 := hcontra
        omega
      · rintro ⟨c, hc, _⟩
        exact absurd hc (by simp)
    · intro _
      exact ⟨rfl, rfl, rfl⟩

/-- Witness for C4 at a 401 outcome on a one-token pool. -/
theorem fetch_classifies_http_errors_witness :
    ∃ out : FetchOut, fetch (initTM ["t1"]) "11" "01001" 1 false (.httpError 401) = some out ∧
      out.borrowed = true ∧ out.issued = true ∧
      (errCount out.state.errors "t1" = errCount (initTM ["t1"]).errors "t1" + 1 ↔
        ∃ c, FetchOutcome.httpError 401 = .httpError c ∧ (c = 401 ∨ c = 403)) ∧
      ((∃ c, FetchOutcome.httpError 401 = .httpError c ∧ ¬(c = 401 ∨ c = 403)) ∨
          FetchOutcome.httpError 401 = .exn →
        out.state.errors = (initTM ["t1"]).errors ∧ out.records = [] ∧
        out.state.queue = [] ++ ["t1"]) :=
  fetch_classifies_http_errors (initTM ["t1"]) "11" "01001" 1 false (.httpError 401)
    "t1" [] rfl (by decide) (by decide)

/-- C3 counterexample: with an empty credential list but resolvable
activities and areas, the `__main__` guards do not abort (no `exit(1)`
fires — no guard inspects the credential list), and the first fetch
blocks forever inside `get_token` (`none`), so the program neither
aborts with a non-zero exit status nor performs any network activity:
the claimed fatal configuration error does not exist in the code. -/
theorem empty_credentials_no_abort_counterexample :
    mainGuardExit ["11"] ["01001"] = none ∧
    fetch (initTM []) "11" "01001" 1 false (.ok .notArr) = none := by decide

/-- C3 amended: an empty credential list never leads to a network
request — any returning fetch under the empty pool is a validation
rejection that issued nothing, and a validated fetch blocks forever —
but the program does not abort: the `__main__` guards pass whenever
activities and areas are nonempty, regardless of credentials. -/
theorem empty_credentials_block_no_request (actividades areas : List String)
    (h1 : actividades ≠ []) (h2 : areas ≠ []) :
    mainGuardExit actividades areas = none ∧
    ∀ (a r : String) (e : Int) (z : Bool) (o : FetchOutcome) (out : FetchOut),
      fetch (initTM []) a r e z o = some out → out.issued = false := by
  constructor
  · cases actividades with
    | nil => exact absurd rfl h1
    | cons x xs =>
      cases areas with
      | nil => exact absurd rfl h2
      | cons y ys => rfl
  · intro a r e z o out hf
    by_cases hv : (validate_actividad a && validate_area r
        && validate_estrato (.int e) z) = true
    · unfold fetch at hf
      rw [hv] at hf
      simp [initTM] at hf
    · have hv' : (validate_actividad a && validate_area r
          && validate_estrato (.int e) z) = false := by
        cases hb : (validate_actividad a && validate_area r
            && validate_estrato (.int e) z)
        · rfl
        · exact absurd hb hv
      unfold fetch at hf
      rw [hv'] at hf
      have : out = ⟨[], initTM [], false, false⟩ := (Option.some.inj hf).symm
      rw [this]

/-- Witness for C3 amended at concrete nonempty activity and area lists. -/
theorem empty_credentials_block_no_request_witness :
    mainGuardExit ["11"] ["09009"] = none ∧
    ∀ (a r : String) (e : Int) (z : Bool) (o : FetchOutcome) (out : FetchOut),
      fetch (initTM []) a r e z o = some out → out.issued = false :=
  empty_credentials_block_no_request ["11"] ["09009"] (by decide) (by decide)

theorem quantifyLoop_eq_sum : ∀ (rs : List Rec) (total : Int),
    quantifyLoop total rs = total + (rs.map recContribution).sum := by
  intro rs
  induction rs with
  | nil => intro total; simp [quantifyLoop]
  | cons r rest ih =>
    intro total
    show quantifyLoop (total + recContribution r) rest
        = total + ((r :: rest).map recContribution).sum
    rw [ih, List.map_cons, List.sum_cons]
    ring

/-- C6: `quantify` returns the sum over the fetched records of the
per-record numeric field — position 2 of list-shaped records, the
truthy `'Total'`/`'total'` field of dictionary-shaped records — with
uncoercible records contributing nothing, 0 on an empty record list,
and 15 on the spec's two-record example. -/
theorem quantify_sums_records (s : TMState) (actividad area : String) (estrato : Int)
    (outcome : FetchOutcome) (out : FetchOut)
    (h : fetch s actividad area estrato false outcome = some out) :
    quantify s actividad area estrato outcome
        = some ((out.records.map recContribution).sum, out.state) ∧
    quantifyLoop 0 [] = 0 ∧
    quantifyLoop 0 [Rec.lst [PyVal.vStr "A", PyVal.vInt 1, PyVal.vInt 15],
        Rec.lst [PyVal.vStr "B", PyVal.vInt 2, PyVal.vStr "bad"]] = 15 := by
  refine ⟨?_, rfl, by decide⟩
  have hqu : quantify s actividad area estrato outcome
      = some (quantifyLoop 0 out.records, out.state) := by
    unfold quantify
    rw [h]
  rw [hqu, quantifyLoop_eq_sum, zero_add]

/-- Witness for C6 on a one-token pool and the spec's example records. -/
theorem quantify_sums_records_witness :
    quantify (initTM ["t1"]) "11" "01001" 1
        (.ok (.arr [Rec.lst [PyVal.vStr "A", PyVal.vInt 1, PyVal.vInt 15],
                    Rec.lst [PyVal.vStr "B", PyVal.vInt 2, PyVal.vStr "bad"]]))
      = some (15, ⟨["t1"], [("t1", 0)], []⟩) := by
  have h := (quantify_sums_records (initTM ["t1"]) "11" "01001" 1
      (.ok (.arr [Rec.lst [PyVal.vStr "A", PyVal.vInt 1, PyVal.vInt 15],
                  Rec.lst [PyVal.vStr "B", PyVal.vInt 2, PyVal.vStr "bad"]]))
      ⟨[Rec.lst [PyVal.vStr "A", PyVal.vInt 1, PyVal.vInt 15],
        Rec.lst [PyVal.vStr "B", PyVal.vInt 2, PyVal.vStr "bad"]],
        ⟨["t1"], [("t1", 0)], []⟩, true, true⟩ (by decide)).1
  rw [h]
  decide

/-- C10: `quantify` is total over arbitrary record shapes — a list-shaped
record with fewer than 3 elements, a dictionary-shaped record with
neither a `'Total'` nor a `'total'` key, and one whose `'Total'` value is
falsy with no usable `'total'` fallback, all contribute 0 to the running
total without raising. -/
theorem quantify_total_over_shapes (total : Int) (rest : List Rec) (r : Rec)
    (h : (∃ items, r = .lst items ∧ items.length < 3) ∨
         (∃ fields, r = .dct fields ∧ alookup fields "Total" = none ∧
            alookup fields "total" = none) ∨
         (∃ fields, r = .dct fields ∧
            (∀ v, alookup fields "Total" = some v → pyTruthy v = false) ∧
            (alookup fields "total" = none ∨ alookup fields "total" = some .vNone))) :
    quantifyLoop total (r :: rest) = quantifyLoop total rest := by
  have hc : recContribution r = 0 := by
    rcases h with ⟨items, rfl, hlen⟩ | ⟨fields, rfl, hT, ht⟩ | ⟨fields, rfl, hT, ht⟩
    · simp only [recContribution]
      rw [if_neg (by omega)]
    · simp only [recContribution]
      rw [hT, ht]
      rfl
    · simp only [recContribution]
      cases hTv : alookup fields "Total" with
      | none =>
        rcases ht with ht | ht <;> rw [ht] <;> rfl
      | some v =>
        have hv := hT v hTv
        rcases ht with ht | ht <;> simp [hTv, ht, hv]
  show quantifyLoop (total + recContribution r) rest = quantifyLoop total rest
  rw [hc, add_zero]

/-- Witness for C10: a length-1 list record contributes nothing. -/
theorem quantify_total_over_shapes_witness :
    quantifyLoop 5 [Rec.lst [PyVal.vInt 1], Rec.dct [("x", PyVal.vInt 2)]]
      = quantifyLoop 5 [Rec.dct [("x", PyVal.vInt 2)]] :=
  quantify_total_over_shapes 5 [Rec.dct [("x", PyVal.vInt 2)]] (Rec.lst [PyVal.vInt 1])
    (Or.inl ⟨[PyVal.vInt 1], rfl, by decide⟩)

/-- C8: `pad_areas` is idempotent on valid codes — an already 5-digit
code passes through unchanged, `"9"` pads to `"00009"`, the wildcard
`"0"` is preserved rather than zero-padded, and applying `pad_areas` to
its own output returns the same list. -/
theorem pad_areas_idempotent :
    (∀ s : String, s.toList.all Char.isDigit = true → s.length = 5 → pad_areas [s] = [s]) ∧
    pad_areas ["9"] = ["00009"] ∧
    pad_areas ["0"] = ["0"] ∧
    (∀ l : List String, pad_areas (pad_areas l) = pad_areas l) := by
  refine ⟨?_, by decide, by decide, ?_⟩
  · intro s hdig hlen
    have hp : padArea s = some s := padArea_of_canonical s (Or.inr ⟨hdig, hlen⟩)
    show dedupFirst ([s].filterMap padArea) = [s]
    rw [List.filterMap_cons_some hp, List.filterMap_nil]
    exact dedupFirst_eq_self [s] (by simp)
  · intro l
    have hcanon : ∀ x ∈ pad_areas l, padArea x = some x := by
      intro x hx
      rw [pad_areas, mem_dedupFirst] at hx
      rcases List.mem_filterMap.1 hx with ⟨a, _, ha⟩
      exact padArea_of_canonical x (padArea_canonical a x ha)
    show dedupFirst ((pad_areas l).filterMap padArea) = pad_areas l
    rw [filterMap_padArea_self (pad_areas l) hcanon]
    refine dedupFirst_eq_self (pad_areas l) ?_
    rw [pad_areas]
    exact nodup_dedupFirst _
/-- Witness for C8 at the code `"12345"` and a concrete mixed list. -/
theorem pad_areas_idempotent_witness :
    pad_areas ["12345"] = ["12345"] ∧
    pad_areas (pad_areas ["9", "0", "12345", "9"]) = pad_areas ["9", "0", "12345", "9"] :=
  ⟨pad_areas_idempotent.1 "12345" (by decide) (by decide),
   pad_areas_idempotent.2.2.2 ["9", "0", "12345", "9"]⟩

/-- C7 counterexample: the record identifier `"ab"` has length 2 but is
not made of digits; the code keeps it (the filter checks only
`len(i) == 2`) and `sorted(..., key=int)` then raises `ValueError`
(modelled by `none`), whereas the claim — keep only identifiers that are
exactly 2 DIGITS, then deduplicate and sort (`two_digit_sectors_spec`) —
requires the empty list to be returned. -/
theorem get_activities_discovery_counterexample :
    two_digit_sectors [Rec.lst [PyVal.vStr "ab"]] = none ∧
    two_digit_sectors_spec [Rec.lst [PyVal.vStr "ab"]] = [] := by decide

/-- C7 amended: discovery keeps the truthy extracted identifiers of
length exactly 2 (digits or not); whenever the sort succeeds (it raises
on any kept non-numeric identifier), the result is duplicate-free,
sorted ascending by integer key, and contains exactly the length-2
identifiers; on raw identifiers ["23","07","07","9"] it is ["07","23"]. -/
theorem get_activities_discovery_props (raw : List Rec) (l : List String)
    (h : two_digit_sectors raw = some l) :
    l.Nodup ∧
    l.Pairwise (fun a b => (pyParseInt a).getD 0 ≤ (pyParseInt b).getD 0) ∧
    (∀ x, x ∈ l ↔ x ∈ discoveredIds raw ∧ x.length = 2) ∧
    two_digit_sectors [Rec.lst [PyVal.vStr "23"], Rec.lst [PyVal.vStr "07"],
        Rec.lst [PyVal.vStr "07"], Rec.lst [PyVal.vStr "9"]] = some ["07", "23"] := by
  have hl : l = sortByKey (fun i => (pyParseInt i).getD 0)
      (dedupFirst ((discoveredIds raw).filter (fun i => i.length == 2))) := by
    simp only [two_digit_sectors] at h
    split at h
    · exact (Option.some.inj h).symm
    · exact absurd h (by simp)
  subst hl
  refine ⟨?_, sorted_sortByKey _ _, ?_, by decide⟩
  · exact (sortByKey_perm _ _).symm.nodup (nodup_dedupFirst _)
  · intro x
    rw [(sortByKey_perm _ _).mem_iff, mem_dedupFirst, List.mem_filter]
    constructor
    · rintro ⟨hx, hlen⟩
      exact ⟨hx, beq_iff_eq.mp hlen⟩
    · rintro ⟨hx, hlen⟩
      exact ⟨hx, by rw [hlen]; rfl⟩

/-- Witness for C7 amended at the spec's example raw records. -/
theorem get_activities_discovery_props_witness :
    (["07", "23"] : List String).Nodup ∧
    (["07", "23"] : List String).Pairwise
      (fun a b => (pyParseInt a).getD 0 ≤ (pyParseInt b).getD 0) ∧
    (∀ x, x ∈ (["07", "23"] : List String) ↔
      x ∈ discoveredIds [Rec.lst [PyVal.vStr "23"], Rec.lst [PyVal.vStr "07"],
          Rec.lst [PyVal.vStr "07"], Rec.lst [PyVal.vStr "9"]] ∧ x.length = 2) ∧
    two_digit_sectors [Rec.lst [PyVal.vStr "23"], Rec.lst [PyVal.vStr "07"],
        Rec.lst [PyVal.vStr "07"], Rec.lst [PyVal.vStr "9"]] = some ["07", "23"] :=
  get_activities_discovery_props
    [Rec.lst [PyVal.vStr "23"], Rec.lst [PyVal.vStr "07"],
     Rec.lst [PyVal.vStr "07"], Rec.lst [PyVal.vStr "9"]] ["07", "23"] (by decide)

/-- C2 counterexample: with the duplicated credential list `["a", "a"]`
(size 2 ≥ 1) and a well-formed borrow/release sequence of three
authorization failures, the single shared failure counter of `"a"`
reaches the threshold 3 — the token is retired — yet the other queued
copy is still circulating and the next `get_token` returns `"a"` again,
so a token whose failure count reached 3 is returned by a later
`get_token` call. -/
theorem token_pool_duplicate_counterexample :
    wfOps (initTM ["a", "a"])
        [.get, .rel "a" false, .get, .rel "a" false, .get, .rel "a" false] = true ∧
    MAX_RETRIES_PER_TOKEN ≤ errCount (runOps (initTM ["a", "a"])
        [.get, .rel "a" false, .get, .rel "a" false, .get, .rel "a" false]).errors "a" ∧
    (getTok (runOps (initTM ["a", "a"])
        [.get, .rel "a" false, .get, .rel "a" false, .get, .rel "a" false])).1
      = some "a" := by decide

/-- C2 amended: for duplicate-free credential lists of size ≥ 1 and
well-formed call sequences (a release only returns a currently borrowed
token, which is how the client drives the pool), every `get_token` that
returns yields an originally supplied token whose failure count is still
below the retirement threshold 3; counters never decrease, so a token
whose count reached 3 is never handed out afterwards. -/
theorem token_pool_no_retired_token (tokens : List String) (hnd : tokens.Nodup)
    (hsz : 1 ≤ tokens.length) (ops : List TMOp)
    (hwf : wfOps (initTM tokens) ops = true) (t : String)
    (ht : (getTok (runOps (initTM tokens) ops)).1 = some t) :
    t ∈ tokens ∧ errCount (runOps (initTM tokens) ops).errors t < MAX_RETRIES_PER_TOKEN := by
  obtain ⟨hq, _, _, _, hret⟩ :=
    poolInv_run tokens ops (initTM tokens) (poolInv_init tokens hnd) hwf
  cases hqs : (runOps (initTM tokens) ops).queue with
  | nil =>
    exfalso
    have hnone : (getTok (runOps (initTM tokens) ops)).1 = none := by
      unfold getTok
      rw [hqs]
    rw [hnone] at ht
    exact Option.noConfusion ht
  | cons u rest =>
    have hu : (getTok (runOps (initTM tokens) ops)).1 = some u := by
      unfold getTok
      rw [hqs]
    rw [hu] at ht
    have h2 : u = t := Option.some.inj ht
    have htq : t ∈ (runOps (initTM tokens) ops).queue := by
      rw [hqs, ← h2]
      exact List.mem_cons_self u rest
    refine ⟨hq t htq, ?_⟩
    by_contra hcnt
    exact (hret t (Nat.le_of_not_lt hcnt)).1 htq

/-- Witness for C2 amended: a fresh two-token pool hands out `"t1"`,
which is original and unretired. -/
theorem token_pool_no_retired_token_witness :
    ("t1" : String) ∈ (["t1", "t2"] : List String) ∧
    errCount (runOps (initTM ["t1", "t2"]) []).errors "t1" < MAX_RETRIES_PER_TOKEN :=
  token_pool_no_retired_token ["t1", "t2"] (by decide) (by decide) [] (by decide)
    "t1" (by decide)
